import Mathlib

/-!
Verification of the token-bucket / sliding-window rate limiter from
`src/data-structures/rate-limiter.ts`.

Numbers: every value this program manipulates at runtime is an integer
(millisecond timestamps, token counts, integer configs; tokens start at the
integer `maxTokens` and are only changed by adding integer refill credits and
subtracting integer costs), and JavaScript float arithmetic is exact on such
integers. We therefore model JS `number` as `ℤ`; the two places the code
divides, `Math.floor(a / b)` and `Math.ceil(a / b)`, are floored and
ceiled integer division (`Int.fdiv` and its negation-dual). `Math.floor`
applied to an already-integral token count is the identity and is embedded
as such.

Stateful methods are embedded as explicit state passing; a method that can
throw is embedded as `Except String _`; the distributed limiter is embedded
as a function of the outcome of its store collaborator calls.
-/

namespace RateLimiterTS

/-- Embedding of `Math.floor(a / b)` on integer operands: floored division. -/
def jsFloorDiv (a b : ℤ) : ℤ := Int.fdiv a b

/-- Embedding of `Math.ceil(a / b)` on integer operands: ceiling division,
written as the negation dual of floored division. -/
def jsCeilDiv (a b : ℤ) : ℤ := -(Int.fdiv (-a) b)

/-- The `RateLimitConfig` interface: `maxTokens`, `refillRate`,
`refillInterval` (ms). -/
structure RateLimitConfig where
  maxTokens : ℤ
  refillRate : ℤ
  refillInterval : ℤ
  deriving Repr, DecidableEq

/-- The `RateLimitResult` interface. `retryAfter` is an optional field in
the source and only set on denial. `resetAt` is the ms timestamp wrapped in
the returned `Date`. -/
structure RateLimitResult where
  allowed : Bool
  remaining : ℤ
  resetAt : ℤ
  retryAfter : Option ℤ := none
  deriving Repr, DecidableEq

/-- The `TokenBucket` interface: current token count and last-refill
timestamp (ms). -/
structure TokenBucket where
  tokens : ℤ
  lastRefill : ℤ
  deriving Repr, DecidableEq

/-- State of a `RateLimiter` instance: the private per-key `buckets` map
(modelled as an association list) plus the immutable `config`. -/
structure LimiterState where
  buckets : List (String × TokenBucket)
  config : RateLimitConfig
  deriving Repr, DecidableEq

/-- The `RateLimiter` constructor: it stores the config and starts the
cleanup timer. It performs no validation of the config values. -/
def RateLimiter.mkState (config : RateLimitConfig) : LimiterState :=
  { buckets := [], config := config }

/-- The method `RateLimiter.limit` (source lines 56-65): its body is a
`TODO(human)` stub whose only statement is `throw new Error("Not
implemented")`, so every call rejects with that error and no bucket is ever
created or consumed. -/
def RateLimiter.limit (_s : LimiterState) (_key : String) (_tokensRequested : ℤ := 1) :
    Except String (RateLimitResult × LimiterState) :=
  .error ("Not implemented")

/-- The method `RateLimiter.refillTokens` (source lines 70-83): compute
`intervalsElapsed = Math.floor((now - lastRefill) / refillInterval)`; when
positive, credit `intervalsElapsed * refillRate` tokens capped at
`maxTokens` and set `lastRefill = now`; otherwise leave the bucket
untouched. -/
def refillTokens (config : RateLimitConfig) (now : ℤ) (bucket : TokenBucket) :
    TokenBucket :=
  let timePassed := now - bucket.lastRefill
  let intervalsElapsed := jsFloorDiv timePassed config.refillInterval
  if 0 < intervalsElapsed then
    let tokensToAdd := intervalsElapsed * config.refillRate
    { tokens := min config.maxTokens (bucket.tokens + tokensToAdd)
      lastRefill := now }
  else
    bucket

/-- The method `RateLimiter.getStatus` (source lines 88-108): report the
state of the bucket for `key` without consuming tokens. An absent key
reports full capacity. For a present key the refill is computed on the
shallow copy `tempBucket = { ...bucket }` (complete, as both fields are
primitives) and the copy is discarded; `resetAt` reads the original
bucket. -/
def getStatus (s : LimiterState) (key : String) (now : ℤ) : RateLimitResult :=
  match s.buckets.lookup key with
  | none =>
      { allowed := true
        remaining := s.config.maxTokens
        resetAt := now + s.config.refillInterval }
  | some bucket =>
      let tempBucket := refillTokens s.config now bucket
      { allowed := decide (1 ≤ tempBucket.tokens)
        remaining := tempBucket.tokens
        resetAt := bucket.lastRefill + s.config.refillInterval }

/-- The method `getStatus` viewed as a call on the limiter object,
returning the post-call state of the receiver: the method reads
`this.buckets` but never assigns to it, so the post-call state is the
pre-call state. -/
def getStatusCall (s : LimiterState) (key : String) (now : ℤ) :
    RateLimitResult × LimiterState :=
  (getStatus s key now, s)

/-- The `WindowEntry` interface of the sliding-window limiter: a timestamp
and a request count. -/
structure WindowEntry where
  timestamp : ℤ
  count : ℤ
  deriving Repr, DecidableEq

/-- State of a `SlidingWindowRateLimiter` instance: the private per-key
`windows` map plus the two constructor arguments. -/
structure SlidingState where
  windows : List (String × List WindowEntry)
  windowSize : ℤ
  maxRequests : ℤ
  deriving Repr, DecidableEq

/-- The `SlidingWindowRateLimiter` constructor (source lines 156-159): it
stores `windowSize` and `maxRequests` as given, with no validation. -/
def SlidingWindowRateLimiter.mkState (windowSize maxRequests : ℤ) : SlidingState :=
  { windows := [], windowSize := windowSize, maxRequests := maxRequests }

/-- The pruning step of `SlidingWindowRateLimiter.limit` (source line 169):
`entries.filter(entry => entry.timestamp > windowStart)`. -/
def pruneEntries (windowStart : ℤ) (entries : List WindowEntry) : List WindowEntry :=
  entries.filter fun entry => decide (windowStart < entry.timestamp)

/-- The method `SlidingWindowRateLimiter.limit` (source lines 161-196) for
one key, acting on the stored log of that key (the `windows` map is
accessed per key: `get(key) || []` then, on the allowed path only,
`set(key, entries)`). The filtered copy is a fresh array bound to a local
variable; on the denied path the method returns without calling `set`, so
the stored log stays `entries0`. When the denial path runs with an empty
filtered log (possible only for `maxRequests ≤ 0`), `entries[0]` is
`undefined` and reading `.timestamp` throws a `TypeError`. -/
def slidingLimitKey (windowSize maxRequests : ℤ) (entries0 : List WindowEntry)
    (now : ℤ) : Except String (RateLimitResult × List WindowEntry) :=
  let windowStart := now - windowSize
  let entries := pruneEntries windowStart entries0
  let totalRequests := (entries.map WindowEntry.count).sum
  if maxRequests ≤ totalRequests then
    match entries.head? with
    | none => .error ("TypeError: undefined oldestEntry")
    | some oldestEntry =>
        .ok ({ allowed := false
               remaining := 0
               resetAt := oldestEntry.timestamp + windowSize
               retryAfter := some (jsCeilDiv (oldestEntry.timestamp + windowSize - now) 1000) },
             entries0)
  else
    .ok ({ allowed := true
           remaining := maxRequests - totalRequests - 1
           resetAt := now + windowSize },
         entries ++ [{ timestamp := now, count := 1 }])

/-- The method `DistributedRateLimiter.limit` (source lines 219-275),
factored over the value obtained from the store: `stored` is the
deserialized `get` result (`none` when the key is absent; serialization is
the round-trip-faithful JSON of `{tokens, lastRefill}`). The returned pair
is the `RateLimitResult` together with the `set` effect the method issues:
`some (bucket, ttl)` on the allowed path (with `ttl = refillInterval * 2`),
`none` on the denied path, which returns without writing. The inline refill
block (lines 236-247) is the same computation as `refillTokens`; the
get-or-create step (lines 224-234) is split off as `loadBucket`. -/
def loadBucket (config : RateLimitConfig) (stored : Option TokenBucket)
    (now : ℤ) : TokenBucket :=
  match stored with
  | some b => b
  | none => { tokens := config.maxTokens, lastRefill := now }

/-- See the comment on `loadBucket` above: this is
`DistributedRateLimiter.limit` (source lines 219-275). -/
def DistributedRateLimiter.limit (config : RateLimitConfig)
    (stored : Option TokenBucket) (now : ℤ) :
    RateLimitResult × Option (TokenBucket × ℤ) :=
  let bucket : TokenBucket := loadBucket config stored now
  let timePassed := now - bucket.lastRefill
  let bucket1 := refillTokens config now bucket
  if 1 ≤ bucket1.tokens then
    let bucket2 : TokenBucket := { bucket1 with tokens := bucket1.tokens - 1 }
    ({ allowed := true
       remaining := bucket2.tokens
       resetAt := bucket2.lastRefill + config.refillInterval },
     some (bucket2, config.refillInterval * 2))
  else
    ({ allowed := false
       remaining := 0
       resetAt := bucket1.lastRefill + config.refillInterval
       retryAfter := some (jsCeilDiv (config.refillInterval - timePassed) 1000) },
     none)

/-- Evolution of the stored value under one `DistributedRateLimiter.limit`
call: the `set` effect, when present, replaces the stored state; a denied
call leaves the store as it was. -/
def distStoreStep (config : RateLimitConfig) (stored : Option TokenBucket)
    (now : ℤ) : Option TokenBucket :=
  match (DistributedRateLimiter.limit config stored now).2 with
  | some (b, _) => some b
  | none => stored

/-- The method `DistributedRateLimiter.limit` including its interaction
with the fallible store collaborator: `getResult` is the outcome of
`await this.store.get(...)` and `setResult` of `await this.store.set(...)`.
The method has no try/catch, so a rejection of either awaited call
propagates to the caller of `limit`. -/
def distLimitWithStore (getResult : Except String (Option TokenBucket))
    (setResult : Except String Unit) (config : RateLimitConfig) (now : ℤ) :
    Except String (RateLimitResult × Option (TokenBucket × ℤ)) :=
  match getResult with
  | .error e => .error e
  | .ok stored =>
      let out := DistributedRateLimiter.limit config stored now
      match out.2 with
      | some _ =>
          match setResult with
          | .error e => .error e
          | .ok _ => .ok out
      | none => .ok out

/-- Action taken by the handler returned by `createRateLimitMiddleware`
(source lines 289-317). -/
inductive MiddlewareAction where
  | callNext
  | respond (status : ℤ) (retryAfter : Option ℤ) (resetAt : ℤ)
  deriving Repr, DecidableEq

/-- The handler returned by `createRateLimitMiddleware`, as a function of
the outcome of the awaited `limiter.limit(key)` call: a denial produces a
429 response carrying `retryAfter` and `resetAt`; an allowed result calls
`next()`; any error is caught by the try/catch and the request is let
through (`next()`, fail open). -/
def rateLimitMiddleware (limitOutcome : Except String RateLimitResult) :
    MiddlewareAction :=
  match limitOutcome with
  | .error _ => .callNext
  | .ok result =>
      if result.allowed then .callNext
      else .respond 429 result.retryAfter result.resetAt

/-! Arithmetic facts about the two division embeddings. -/

theorem jsFloorDiv_pos_iff {a b : ℤ} (hb : 0 < b) : 0 < jsFloorDiv a b ↔ b ≤ a := by
  unfold jsFloorDiv
  rw [Int.fdiv_eq_ediv _ hb.le]
  have h := @Int.le_ediv_iff_mul_le 1 a b hb
  constructor
  · intro hpos
    have h1 : (1 : ℤ) ≤ a / b := hpos
    have h2 := h.mp h1
    omega
  · intro hba
    have h2 : (1 : ℤ) ≤ a / b := h.mpr (by omega)
    omega

theorem jsFloorDiv_nonneg {a b : ℤ} (ha : 0 ≤ a) (hb : 0 ≤ b) :
    0 ≤ jsFloorDiv a b :=
  Int.fdiv_nonneg ha hb

theorem jsCeilDiv_pos {a b : ℤ} (ha : 0 < a) (hb : 0 < b) : 1 ≤ jsCeilDiv a b := by
  unfold jsCeilDiv
  have h := Int.fdiv_neg' (show -a < 0 by omega) hb
  omega

end RateLimiterTS

namespace RateLimiterTS

/-- Claim C1: the spec says `RateLimiter.limit(key, cost)` refills the
bucket, then either consumes `cost` tokens and returns an allowed
`RateLimitResult` or returns a denial with `retryAfter`; in the scenario
`maxTokens=5, refillRate=1, refillInterval=1000` five calls at `t=0` are
allowed with remaining 4,3,2,1,0 and a sixth is denied. The code disagrees:
the method body is an unexpanded `TODO(human)` stub, so every call — in
particular the first scenario call — throws `Error("Not implemented")` and
never produces any `RateLimitResult`. -/
theorem limit_always_not_implemented :
    ∀ (s : LimiterState) (key : String) (cost : ℤ),
      RateLimiter.limit s key cost = .error ("Not implemented") :=
  fun _ _ _ => rfl

/-- Claim C2: the refill step credits exactly
`floor(elapsed / refillInterval) * refillRate` tokens capped at
`maxTokens`, moves `lastRefill` to `now` exactly when a full interval has
elapsed, and does nothing at all (no tokens, `lastRefill` untouched) when
less than one interval has elapsed. -/
theorem refillTokens_spec (config : RateLimitConfig) (now : ℤ) (b : TokenBucket)
    (hiv : 0 < config.refillInterval) (helapsed : 0 ≤ now - b.lastRefill)
    (hcap : b.tokens ≤ config.maxTokens) :
    (refillTokens config now b).tokens
        = min config.maxTokens
            (b.tokens + jsFloorDiv (now - b.lastRefill) config.refillInterval
                * config.refillRate)
      ∧ (refillTokens config now b).lastRefill
          = (if config.refillInterval ≤ now - b.lastRefill then now else b.lastRefill)
      ∧ (now - b.lastRefill < config.refillInterval → refillTokens config now b = b) := by
  have hpos := jsFloorDiv_pos_iff (a := now - b.lastRefill) hiv
  have hnn := jsFloorDiv_nonneg (a := now - b.lastRefill) (b := config.refillInterval)
    helapsed hiv.le
  unfold refillTokens
  by_cases hi : 0 < jsFloorDiv (now - b.lastRefill) config.refillInterval
  · rw [if_pos hi]
    refine ⟨rfl, ?_, ?_⟩
    · rw [if_pos (hpos.mp hi)]
    · intro hlt
      exact absurd (hpos.mp hi) (by omega)
  · rw [if_neg hi]
    have hzero : jsFloorDiv (now - b.lastRefill) config.refillInterval = 0 := by omega
    refine ⟨?_, ?_, fun _ => rfl⟩
    · rw [hzero]
      simp [min_eq_right hcap]
    · rw [if_neg (fun hle => hi (hpos.mpr hle))]

/-- Witness for claim C2 at the spec scenario: config
`maxTokens=5, refillRate=1, refillInterval=1000`, a bucket at 0 tokens last
refilled at `t=0`, checked at `t=2000`: the refill credits
`floor(2000/1000) * 1 = 2` tokens and `getStatus` reports `remaining = 2`
without mutating the stored bucket. -/
theorem refillTokens_spec_witness :
    (0 : ℤ) < 1000 ∧ (0 : ℤ) ≤ 2000 - 0 ∧ (0 : ℤ) ≤ 5
      ∧ (refillTokens ⟨5, 1, 1000⟩ 2000 ⟨0, 0⟩).tokens
          = min 5 (0 + jsFloorDiv (2000 - 0) 1000 * 1)
      ∧ (getStatus ⟨[("k", ⟨0, 0⟩)], ⟨5, 1, 1000⟩⟩ "k" 2000).remaining = 2 :=
  ⟨by decide, by decide, by decide,
    (refillTokens_spec ⟨5, 1, 1000⟩ 2000 ⟨0, 0⟩ (by decide) (by decide) (by decide)).1,
    by decide⟩

/-- Claim C4: the sliding window is the half-open interval
`(now - windowSize, now]`: exactly the entries with timestamp strictly
greater than `now - windowSize` survive pruning, and an entry sitting
exactly on the boundary `now - windowSize` has no effect on the decision
of a `limit` call. -/
theorem sliding_window_half_open (windowSize maxRequests now : ℤ)
    (l : List WindowEntry) :
    (∀ e : WindowEntry,
        e ∈ pruneEntries (now - windowSize) l
          ↔ e ∈ l ∧ now - windowSize < e.timestamp)
    ∧ ∀ c : ℤ,
        (slidingLimitKey windowSize maxRequests
              ({ timestamp := now - windowSize, count := c } :: l) now).map Prod.fst
          = (slidingLimitKey windowSize maxRequests l now).map Prod.fst := by
  constructor
  · intro e
    simp [pruneEntries, List.mem_filter]
  · intro c
    have hprune :
        pruneEntries (now - windowSize)
            ({ timestamp := now - windowSize, count := c } :: l)
          = pruneEntries (now - windowSize) l := by
      simp [pruneEntries]
    by_cases hle :
        maxRequests ≤ ((pruneEntries (now - windowSize) l).map WindowEntry.count).sum
    · simp only [slidingLimitKey, hprune, if_pos hle]
      cases (pruneEntries (now - windowSize) l).head? <;> simp [Except.map]
    · simp only [slidingLimitKey, hprune, if_neg hle]

/-- Claim C5: `getStatus` is a pure read. Any sequence of status calls
leaves the stored bucket map exactly as it was (the refill runs on a
throwaway copy), and N status calls at the same instant all return the
identical result. -/
theorem getStatus_idempotent_no_mutation :
    ∀ (s : LimiterState) (key : String),
      (∀ nows : List ℤ,
          nows.foldl (fun st t => (getStatusCall st key t).2) s = s)
      ∧ ∀ (now : ℤ) (n : ℕ),
          (List.replicate n now).map (fun t => (getStatusCall s key t).1)
            = List.replicate n (getStatus s key now) := by
  intro s key
  constructor
  · intro nows
    induction nows with
    | nil => rfl
    | cons t ts ih => exact ih
  · intro now n
    simp [getStatusCall]

/-- Counterexample to claim C6: the claim says a non-positive `maxTokens`,
`refillRate`, `refillInterval`, `windowSize` or `maxRequests` makes the
constructor raise a configuration error. Neither constructor contains any
check: constructing a `RateLimiter` with the all-zero config and a
`SlidingWindowRateLimiter` with `windowSize = 0`, `maxRequests = -1`
returns normally with the bad values stored verbatim. -/
theorem constructor_accepts_nonpositive_config :
    RateLimiter.mkState { maxTokens := 0, refillRate := 0, refillInterval := 0 }
        = { buckets := [],
            config := { maxTokens := 0, refillRate := 0, refillInterval := 0 } }
      ∧ SlidingWindowRateLimiter.mkState 0 (-1)
        = { windows := [], windowSize := 0, maxRequests := -1 } :=
  ⟨rfl, rfl⟩

/-- Claim C6 as amended: the constructors perform no validation at all —
every configuration, non-positive values included, is accepted and stored
unchanged, and no error is raised at construction time. -/
theorem constructor_no_validation :
    ∀ (config : RateLimitConfig) (w m : ℤ),
      RateLimiter.mkState config = { buckets := [], config := config }
      ∧ SlidingWindowRateLimiter.mkState w m
          = { windows := [], windowSize := w, maxRequests := m } :=
  fun _ _ _ => ⟨rfl, rfl⟩

/-- Counterexample to claim C7: the claim says the updated bucket state is
written back with TTL `2 * refillInterval` regardless of the decision. On
a denied call no write happens at all: with `maxTokens = 1`, a stored
bucket at 0 tokens and no elapsed time, the call is denied and the `set`
effect is `none`. -/
theorem distributed_denied_write_skipped :
    (DistributedRateLimiter.limit ⟨1, 1, 1000⟩ (some ⟨0, 0⟩) 0).1.allowed = false
    ∧ (DistributedRateLimiter.limit ⟨1, 1, 1000⟩ (some ⟨0, 0⟩) 0).2 = none := by
  decide

/-- Claim C7 as amended: `DistributedRateLimiter.limit` persists the
updated bucket with a time-to-live of `refillInterval * 2` exactly when the
call is allowed; a denied call issues no store write. -/
theorem distributed_write_iff_allowed :
    ∀ (config : RateLimitConfig) (stored : Option TokenBucket) (now : ℤ),
      ((DistributedRateLimiter.limit config stored now).1.allowed = true
        ∧ ∃ b, (DistributedRateLimiter.limit config stored now).2
            = some (b, config.refillInterval * 2))
      ∨ ((DistributedRateLimiter.limit config stored now).1.allowed = false
        ∧ (DistributedRateLimiter.limit config stored now).2 = none) := by
  intro config stored now
  unfold DistributedRateLimiter.limit
  dsimp only
  split
  · exact .inl ⟨rfl, _, rfl⟩
  · exact .inr ⟨rfl, rfl⟩

/-- Counterexample to claim C8: the claim says a failing store `get`/`set`
is not surfaced to the caller of `DistributedRateLimiter.limit` and is
resolved as allowed. The method has no try/catch: when `get` rejects, the
whole call rejects with the same error instead of resolving, and likewise
when `get` succeeds (absent key, fresh full bucket, call allowed) but the
write-back `set` rejects. -/
theorem distributed_store_error_propagates :
    distLimitWithStore (.error ("store down")) (.ok ()) ⟨5, 1, 1000⟩ 0
      = .error ("store down")
    ∧ distLimitWithStore (.ok none) (.error ("set failed")) ⟨5, 1, 1000⟩ 0
      = .error ("set failed") :=
  ⟨rfl, rfl⟩

/-- The capacity invariant of the spec, on the stored value of one key of
the distributed store: either the key is absent or its bucket holds between
0 and `maxTokens` tokens. -/
def BucketInv (config : RateLimitConfig) : Option TokenBucket → Prop
  | none => True
  | some b => 0 ≤ b.tokens ∧ b.tokens ≤ config.maxTokens

theorem refillTokens_bounds {config : RateLimitConfig}
    (hrate : 0 < config.refillRate) {b : TokenBucket} (h0 : 0 ≤ b.tokens)
    (hcap : b.tokens ≤ config.maxTokens) (now : ℤ) :
    0 ≤ (refillTokens config now b).tokens
      ∧ (refillTokens config now b).tokens ≤ config.maxTokens := by
  unfold refillTokens
  by_cases hi : 0 < jsFloorDiv (now - b.lastRefill) config.refillInterval
  · rw [if_pos hi]
    refine ⟨le_min (h0.trans hcap) (add_nonneg h0 (mul_pos hi hrate).le), min_le_left _ _⟩
  · rw [if_neg hi]
    exact ⟨h0, hcap⟩

theorem loadBucket_bounds {config : RateLimitConfig}
    (hmax : 0 ≤ config.maxTokens) {stored : Option TokenBucket}
    (h : BucketInv config stored) (now : ℤ) :
    0 ≤ (loadBucket config stored now).tokens
      ∧ (loadBucket config stored now).tokens ≤ config.maxTokens := by
  cases stored with
  | none => exact ⟨hmax, le_refl _⟩
  | some b => exact h

theorem distStoreStep_inv {config : RateLimitConfig}
    (hmax : 0 ≤ config.maxTokens) (hrate : 0 < config.refillRate)
    {stored : Option TokenBucket} (h : BucketInv config stored) (now : ℤ) :
    BucketInv config (distStoreStep config stored now) := by
  obtain ⟨hb0, hb0c⟩ := loadBucket_bounds hmax h now
  obtain ⟨hr0, hr1⟩ := refillTokens_bounds hrate hb0 hb0c now
  unfold distStoreStep DistributedRateLimiter.limit
  dsimp only
  by_cases hc : 1 ≤ (refillTokens config now (loadBucket config stored now)).tokens
  · rw [if_pos hc]
    refine ⟨?_, ?_⟩ <;> dsimp only <;> omega
  · rw [if_neg hc]
    exact h

/-- Claim C3: over every sequence of `DistributedRateLimiter.limit` calls
for a key, starting from the absent state, the stored token count stays
between 0 and `maxTokens` at every observed point: a fresh bucket starts at
`maxTokens`, the refill caps at `maxTokens`, and a token is only consumed
when at least one is available. -/
theorem distributed_capacity_invariant (config : RateLimitConfig)
    (hmax : 0 ≤ config.maxTokens) (hrate : 0 < config.refillRate) :
    ∀ times : List ℤ,
      BucketInv config
        (times.foldl (fun stored t => distStoreStep config stored t) none) := by
  have aux : ∀ (ts : List ℤ) (st : Option TokenBucket), BucketInv config st →
      BucketInv config (ts.foldl (fun stored t => distStoreStep config stored t) st) := by
    intro ts
    induction ts with
    | nil => exact fun st h => h
    | cons t ts ih => exact fun st h => ih _ (distStoreStep_inv hmax hrate h t)
  exact fun times => aux times none trivial

/-- Witness for claim C3: with the scenario config
`maxTokens=5, refillRate=1, refillInterval=1000` and three calls at `t=0`,
the stored bucket satisfies the capacity invariant. -/
theorem distributed_capacity_invariant_witness :
    (0 : ℤ) ≤ 5 ∧ (0 : ℤ) < 1
      ∧ BucketInv ⟨5, 1, 1000⟩
          (([0, 0, 0] : List ℤ).foldl
            (fun stored t => distStoreStep ⟨5, 1, 1000⟩ stored t) none) :=
  ⟨by decide, by decide,
    distributed_capacity_invariant ⟨5, 1, 1000⟩ (by decide) (by decide) [0, 0, 0]⟩

/-- Sum of the counts of a log whose entries all carry count 1. -/
theorem sum_counts_one {l : List WindowEntry} (h : ∀ e ∈ l, e.count = 1) :
    (l.map WindowEntry.count).sum = (l.length : ℤ) := by
  induction l with
  | nil => simp
  | cons e es ih =>
      simp only [List.map_cons, List.sum_cons, List.length_cons]
      rw [h e (List.mem_cons_self e es), ih (fun x hx => h x (List.mem_cons_of_mem _ hx))]
      push_cast
      ring

/-- A filter that preserves the length of a list accepts every element. -/
theorem all_of_filter_length_eq {α : Type} {p : α → Bool} :
    ∀ {l : List α}, (l.filter p).length = l.length → ∀ a ∈ l, p a = true := by
  intro l
  induction l with
  | nil =>
      intro _ a ha
      simp at ha
  | cons x xs ih =>
      intro h a ha
      by_cases hx : p x = true
      · rw [List.filter_cons_of_pos hx] at h
        simp only [List.length_cons] at h
        rcases List.mem_cons.mp ha with rfl | hmem
        · exact hx
        · exact ih (by omega) a hmem
      · rw [List.filter_cons_of_neg hx] at h
        have hle := List.length_filter_le p xs
        simp only [List.length_cons] at h
        omega

/-- Shape invariant of a stored sliding-window log: every entry was pushed
with count 1, and the log never holds more entries than `maxRequests`
(an allowed call stores the pruned survivors, fewer than `maxRequests` of
them, plus the one new entry). -/
def SlidingLogInv (maxRequests : ℤ) (l : List WindowEntry) : Prop :=
  (∀ e ∈ l, e.count = 1) ∧ (l.length : ℤ) < maxRequests + 1

/-- The stored logs reachable for one key of a `SlidingWindowRateLimiter`:
the empty log, plus everything a completed `limit` call can store. -/
inductive SlidingReachable (windowSize maxRequests : ℤ) : List WindowEntry → Prop where
  | nil : SlidingReachable windowSize maxRequests []
  | step (l l' : List WindowEntry) (now : ℤ) (r : RateLimitResult)
      (hl : SlidingReachable windowSize maxRequests l)
      (hcall : slidingLimitKey windowSize maxRequests l now = .ok (r, l')) :
      SlidingReachable windowSize maxRequests l'

theorem sliding_reachable_inv {windowSize maxRequests : ℤ}
    (hm : 1 ≤ maxRequests) {l : List WindowEntry}
    (h : SlidingReachable windowSize maxRequests l) :
    SlidingLogInv maxRequests l := by
  induction h with
  | nil =>
      refine ⟨fun e he => ?_, ?_⟩
      · simp at he
      · simp only [List.length_nil, Nat.cast_zero]
        omega
  | step l l' now r hl hcall ih =>
      unfold slidingLimitKey at hcall
      by_cases hle : maxRequests
          ≤ ((pruneEntries (now - windowSize) l).map WindowEntry.count).sum
      · rw [if_pos hle] at hcall
        cases hh : (pruneEntries (now - windowSize) l).head? with
        | none =>
            rw [hh] at hcall
            cases hcall
        | some oldest =>
            rw [hh] at hcall
            simp only [Except.ok.injEq, Prod.mk.injEq] at hcall
            exact hcall.2 ▸ ih
      · rw [if_neg hle] at hcall
        simp only [Except.ok.injEq, Prod.mk.injEq] at hcall
        obtain ⟨hcounts, hlen⟩ := ih
        have hcnts : ∀ e ∈ pruneEntries (now - windowSize) l, e.count = 1 :=
          fun e he => hcounts e (List.mem_filter.mp he).1
        rw [← hcall.2]
        constructor
        · intro e he
          rcases List.mem_append.mp he with h1 | h1
          · exact hcnts e h1
          · have : e = { timestamp := now, count := 1 } := by simpa using h1
            rw [this]
        · rw [List.length_append]
          have hplen : ((pruneEntries (now - windowSize) l).length : ℤ) < maxRequests := by
            rw [sum_counts_one hcnts] at hle
            omega
          simp only [List.length_singleton]
          push_cast
          omega

/-- Claim C9: after any completed `limit` call for a key of a
`SlidingWindowRateLimiter` (valid config, reachable stored log), the log
stored for that key holds no entry with `timestamp ≤ now - windowSize`.
On the allowed path the filtered survivors plus the fresh entry are stored;
on the denied path the method stores nothing, but a denial needs at least
`maxRequests` surviving entries while a reachable log never holds more than
`maxRequests`, so every stored entry survived the filter and the stale
set was already empty. -/
theorem sliding_stored_log_fresh (windowSize maxRequests : ℤ)
    (l : List WindowEntry) (now : ℤ)
    (hreach : SlidingReachable windowSize maxRequests l)
    (hm : 1 ≤ maxRequests) (hw : 0 < windowSize) :
    ∃ r l', slidingLimitKey windowSize maxRequests l now = .ok (r, l')
      ∧ ∀ e ∈ l', now - windowSize < e.timestamp := by
  obtain ⟨hcounts, hlen⟩ := sliding_reachable_inv hm hreach
  have hcnts : ∀ e ∈ pruneEntries (now - windowSize) l, e.count = 1 :=
    fun e he => hcounts e (List.mem_filter.mp he).1
  have hsum := sum_counts_one hcnts
  unfold slidingLimitKey
  by_cases hle : maxRequests
      ≤ ((pruneEntries (now - windowSize) l).map WindowEntry.count).sum
  · have hfle : (pruneEntries (now - windowSize) l).length ≤ l.length :=
      List.length_filter_le _ _
    have heq : (pruneEntries (now - windowSize) l).length = l.length := by
      rw [hsum] at hle
      omega
    have hall : ∀ e ∈ l, now - windowSize < e.timestamp :=
      fun e he => of_decide_eq_true (all_of_filter_length_eq heq e he)
    rw [if_pos hle]
    cases hp : (pruneEntries (now - windowSize) l).head? with
    | none =>
        exfalso
        have hnil : pruneEntries (now - windowSize) l = [] := by simpa using hp
        rw [hnil] at hle
        simp at hle
        omega
    | some oldest =>
        exact ⟨_, l, rfl, hall⟩
  · rw [if_neg hle]
    refine ⟨_, _, rfl, ?_⟩
    intro e he
    rcases List.mem_append.mp he with h1 | h1
    · exact of_decide_eq_true (List.mem_filter.mp h1).2
    · have : e = { timestamp := now, count := 1 } := by simpa using h1
      rw [this]
      dsimp only
      omega

/-- Witness for claim C9: window `windowSize=1000, maxRequests=1`, the
empty (initial, hence reachable) log, call at `t=0`: the call completes
and the stored log holds only entries strictly inside the window. -/
theorem sliding_stored_log_fresh_witness :
    ∃ r l', slidingLimitKey 1000 1 [] 0 = .ok (r, l')
      ∧ ∀ e ∈ l', (0 : ℤ) - 1000 < e.timestamp :=
  sliding_stored_log_fresh 1000 1 [] 0 SlidingReachable.nil (by decide) (by decide)

/-- Claim C10: with an integral config (`maxTokens ≥ 1`, `refillRate ≥ 1`,
positive `refillInterval`) and a stored bucket holding a non-negative
token count, a denied `DistributedRateLimiter.limit` call always reports
`retryAfter ≥ 1`: a denial implies no full interval elapsed (one interval
would credit at least one token), so `refillInterval - timePassed` is
positive and its ceiling-divide by 1000 is at least 1. -/
theorem distributed_denial_retry_after_pos (config : RateLimitConfig)
    (stored : Option TokenBucket) (now : ℤ)
    (hmax : 1 ≤ config.maxTokens) (hrate : 1 ≤ config.refillRate)
    (hiv : 0 < config.refillInterval)
    (htok : ∀ b, stored = some b → 0 ≤ b.tokens) :
    (DistributedRateLimiter.limit config stored now).1.allowed = false →
      ∃ ra, (DistributedRateLimiter.limit config stored now).1.retryAfter = some ra
        ∧ 1 ≤ ra := by
  intro hdenied
  have hb0 : 0 ≤ (loadBucket config stored now).tokens := by
    cases stored with
    | none => exact le_trans (by omega) hmax
    | some b => exact htok b rfl
  have hfail : ¬ 1 ≤ (refillTokens config now (loadBucket config stored now)).tokens := by
    intro hc
    have hall : (DistributedRateLimiter.limit config stored now).1.allowed = true := by
      unfold DistributedRateLimiter.limit
      dsimp only
      rw [if_pos hc]
    rw [hall] at hdenied
    exact absurd hdenied (by simp)
  have hintervals :
      ¬ 0 < jsFloorDiv (now - (loadBucket config stored now).lastRefill)
          config.refillInterval := by
    intro hi
    apply hfail
    unfold refillTokens
    rw [if_pos hi]
    have hprod : (1 : ℤ)
        ≤ jsFloorDiv (now - (loadBucket config stored now).lastRefill)
            config.refillInterval * config.refillRate := by
      have := mul_le_mul (by omega : (1 : ℤ) ≤ jsFloorDiv
          (now - (loadBucket config stored now).lastRefill) config.refillInterval)
        hrate (by omega) (by omega)
      linarith
    exact le_min hmax (by linarith)
  have htp : now - (loadBucket config stored now).lastRefill < config.refillInterval := by
    by_contra hge
    exact hintervals ((jsFloorDiv_pos_iff hiv).mpr (by omega))
  refine ⟨jsCeilDiv
      (config.refillInterval - (now - (loadBucket config stored now).lastRefill)) 1000,
    ?_, jsCeilDiv_pos (by omega) (by omega)⟩
  unfold DistributedRateLimiter.limit
  dsimp only
  rw [if_neg hfail]

/-- Witness for claim C10: config `maxTokens=1, refillRate=1,
refillInterval=1000`, stored bucket at 0 tokens refilled at `t=0`, call at
`t=0`: denied, and `retryAfter = ceil(1000/1000) = 1 ≥ 1`. -/
theorem distributed_denial_retry_after_pos_witness :
    ∃ ra, (DistributedRateLimiter.limit ⟨1, 1, 1000⟩ (some ⟨0, 0⟩) 0).1.retryAfter
        = some ra ∧ 1 ≤ ra :=
  distributed_denial_retry_after_pos ⟨1, 1, 1000⟩ (some ⟨0, 0⟩) 0
    (by decide) (by decide) (by decide)
    (fun b hb => by injection hb with h; rw [← h])
    (by decide)

/-- Claim C8 as amended: a store failure propagates out of
`DistributedRateLimiter.limit` unchanged — a failing `get` always, and a
failing `set` whenever the call issues a write (the `set` is only awaited
then; a call that issues no write never touches `set` and resolves
normally). The fail-open policy lives one layer up, in the middleware of
`createRateLimitMiddleware`, whose try/catch turns any limiter error into
`next()` (the request is let through). -/
theorem store_failure_fail_open_at_middleware :
    ∀ (e : String) (setResult : Except String Unit) (config : RateLimitConfig)
      (stored : Option TokenBucket) (now : ℤ),
      distLimitWithStore (.error e) setResult config now = .error e
      ∧ distLimitWithStore (.ok stored) (.error e) config now
          = (if (DistributedRateLimiter.limit config stored now).2.isSome
             then .error e
             else .ok (DistributedRateLimiter.limit config stored now))
      ∧ rateLimitMiddleware (.error e) = .callNext := by
  intro e setResult config stored now
  refine ⟨rfl, ?_, rfl⟩
  unfold distLimitWithStore
  cases h : (DistributedRateLimiter.limit config stored now).2 with
  | some w => simp [h]
  | none => simp [h]

end RateLimiterTS
